import Mathlib

/-!
Shallow embedding of the nexus-order-manager core (Go): the order domain
model (internal/domain/order.go), the persistence operations the orchestrator
uses (internal/infrastructure/persistence/postgres.go), the orchestrator's
submission, execution and outbox-relay paths
(internal/application/orchestrator.go), and the HTTP order-creation handler.

Go strings are Lean `String`s, `time.Time` is a `Nat` tick, `float64`
quantities and prices are `ℚ` (the code only compares them with 0), and the
database is an explicit `Db` state threaded through the operations.  Calls
that can fail for external reasons (a storage write, a Kafka publish, the
exchange call) take explicit `Bool` success oracles.
-/

namespace Nexus

/-- OrderStatus constant from internal/domain/order.go. -/
def StatusPending : String := "PENDING"

/-- OrderStatus constant from internal/domain/order.go. -/
def StatusExecuting : String := "EXECUTING"

/-- OrderStatus constant from internal/domain/order.go. -/
def StatusCompleted : String := "COMPLETED"

/-- OrderStatus constant from internal/domain/order.go. -/
def StatusFailed : String := "FAILED"

/-- OrderSide constant from internal/domain/order.go. -/
def SideBuy : String := "BUY"

/-- OrderSide constant from internal/domain/order.go. -/
def SideSell : String := "SELL"

/-- OrderType constant from internal/domain/order.go. -/
def TypeMarket : String := "MARKET"

/-- OrderType constant from internal/domain/order.go. -/
def TypeLimit : String := "LIMIT"

/-- The `Order` struct of internal/domain/order.go. -/
structure Order where
  id : String
  symbol : String
  side : String
  type : String
  quantity : ℚ
  price : ℚ
  status : String
  createdAt : Nat
  updatedAt : Nat
deriving DecidableEq

/-- The `OutboxEvent` struct of internal/domain/order.go.  The payload is the
serialized snapshot of the order; serialization is modelled as the identity,
so the payload field carries the `Order` value itself. -/
structure OutboxEvent where
  id : Nat
  aggregate : String
  aggregateID : String
  eventType : String
  payload : Order
  processed : Bool
  createdAt : Nat
  processedAt : Option Nat
deriving DecidableEq

/-- `NewOrder` from internal/domain/order.go: builds an order with status
PENDING and both timestamps set to the current time. -/
def NewOrder (id symbol side type : String) (quantity price : ℚ) (now : Nat) : Order :=
  { id := id, symbol := symbol, side := side, type := type,
    quantity := quantity, price := price, status := StatusPending,
    createdAt := now, updatedAt := now }

/-- `(*Order).IsValid` from internal/domain/order.go:
`o.ID != "" && o.Symbol != "" && o.Quantity > 0`. -/
def IsValid (o : Order) : Bool :=
  o.id ≠ "" && o.symbol ≠ "" && 0 < o.quantity

/-- The transition table of `CanTransitionTo` (internal/domain/order.go):
the map literal `transitions`, looked up at the current status.  A Go map
lookup at a missing key yields the zero value, i.e. the empty slice. -/
def transitionsFor (status : String) : List String :=
  if status = StatusPending then [StatusExecuting, StatusFailed]
  else if status = StatusExecuting then [StatusCompleted, StatusFailed]
  else if status = StatusCompleted then []
  else if status = StatusFailed then []
  else []

/-- The `for _, allowed := range ...` loop body of `CanTransitionTo`:
returns true as soon as an allowed target equals the requested one. -/
def containsStatus : List String → String → Bool
  | [], _ => false
  | allowed :: rest, s => if allowed = s then true else containsStatus rest s

/-- `(*Order).CanTransitionTo` from internal/domain/order.go, as a function
of the current status and the requested status. -/
def CanTransitionTo (current target : String) : Bool :=
  containsStatus (transitionsFor current) target

/-- The method form: `o.CanTransitionTo(newStatus)` reads `o.Status`. -/
def Order.CanTransitionTo (o : Order) (newStatus : String) : Bool :=
  Nexus.CanTransitionTo o.status newStatus

/-- In-memory model of the two Postgres tables plus the outbox
auto-increment sequence.  Each gorm `Create`/`Save`/`Updates` call in
postgres.go runs as its own implicit transaction, so each operation below
commits its effect on `Db` independently. -/
structure Db where
  orders : List Order
  events : List OutboxEvent
  nextEventId : Nat
deriving DecidableEq

/-- `CreateOrder` (postgres.go): a gorm insert into `orders`.  It fails when
the storage layer fails (`ok = false`) or on a duplicate primary key;
`none` means the call returned an error and wrote nothing. -/
def CreateOrder (ok : Bool) (db : Db) (o : Order) : Option Db :=
  if ok && !(db.orders.any (fun x => x.id = o.id)) then
    some { db with orders := db.orders ++ [o] }
  else none

/-- `CreateOutboxEvent` (postgres.go): a gorm insert into `outbox_events`.
The store assigns the auto-increment surrogate id and the creation
timestamp; `none` means the call returned an error and wrote nothing. -/
def CreateOutboxEvent (ok : Bool) (now : Nat) (db : Db) (e : OutboxEvent) : Option Db :=
  if ok then
    some { db with
      events := db.events ++ [{ e with id := db.nextEventId, createdAt := now }],
      nextEventId := db.nextEventId + 1 }
  else none

/-- `GetOrder` (postgres.go): gorm `First` on the primary key. -/
def GetOrder (db : Db) (id : String) : Option Order :=
  db.orders.find? (fun x => x.id = id)

/-- `UpdateOrder` (postgres.go): gorm `Save`, an upsert on the primary key. -/
def UpdateOrder (db : Db) (o : Order) : Db :=
  if db.orders.any (fun x => x.id = o.id) then
    { db with orders := db.orders.map (fun x => if x.id = o.id then o else x) }
  else { db with orders := db.orders ++ [o] }

/-- Insertion step of the model of `ORDER BY created_at ASC`. -/
def insertByCreatedAt (e : OutboxEvent) : List OutboxEvent → List OutboxEvent
  | [] => [e]
  | x :: xs =>
    if e.createdAt ≤ x.createdAt then e :: x :: xs else x :: insertByCreatedAt e xs

/-- Model of the database sorting rows by `created_at` ascending. -/
def sortByCreatedAt : List OutboxEvent → List OutboxEvent
  | [] => []
  | x :: xs => insertByCreatedAt x (sortByCreatedAt xs)

/-- `GetUnprocessedOutboxEvents` (postgres.go):
`WHERE processed = false ORDER BY created_at ASC LIMIT limit`. -/
def GetUnprocessedOutboxEvents (db : Db) (limit : Nat) : List OutboxEvent :=
  (sortByCreatedAt (db.events.filter (fun e => !e.processed))).take limit

/-- `MarkOutboxEventProcessed` (postgres.go):
`UPDATE outbox_events SET processed = true, processed_at = now WHERE id = ?`. -/
def MarkOutboxEventProcessed (now : Nat) (db : Db) (id : Nat) : Db :=
  { db with events := db.events.map (fun e =>
      if e.id = id then { e with processed := true, processedAt := some now } else e) }

/-- `SubmitOrder` (orchestrator.go): inserts the order, then — as a second,
separate store call, with no surrounding transaction — inserts the
"OrderSubmitted" outbox event whose payload is a snapshot of the order.
Returns the database state left visible by the call and the error, if any.
If the first insert fails nothing is written; if only the second insert
fails, the order row stays committed. -/
def SubmitOrder (orderOk eventOk : Bool) (now : Nat) (db : Db) (order : Order) :
    Db × Option String :=
  match CreateOrder orderOk db order with
  | none => (db, some "failed to create order")
  | some db1 =>
    match CreateOutboxEvent eventOk now db1
        { id := 0, aggregate := "Order", aggregateID := order.id,
          eventType := "OrderSubmitted", payload := order, processed := false,
          createdAt := 0, processedAt := none } with
    | none => (db1, some "failed to create outbox event")
    | some db2 => (db2, none)

/-- The decoded JSON body of POST /api/v1/orders. -/
structure OrderRequest where
  id : String
  symbol : String
  side : String
  type : String
  quantity : ℚ
  price : ℚ
deriving DecidableEq

/-- The `createOrder` HTTP handler (internal/infrastructure/http): builds the
order with `NewOrder`, answers 400 when `IsValid` fails — before any store
call — and otherwise calls `SubmitOrder`, answering 500 on error and 202 on
success.  Returns the visible database state and the HTTP status code. -/
def createOrder (orderOk eventOk : Bool) (now : Nat) (db : Db) (req : OrderRequest) :
    Db × Nat :=
  let order := NewOrder req.id req.symbol req.side req.type req.quantity req.price now
  if !(IsValid order) then (db, 400)
  else
    match SubmitOrder orderOk eventOk now db order with
    | (db1, some _) => (db1, 500)
    | (db1, none) => (db1, 202)

/-- The empty database: no orders, no events, first surrogate key 1. -/
def dbEmpty : Db := { orders := [], events := [], nextEventId := 1 }

/-- A well-formed MARKET order, as submitted in the spec's end-to-end
scenarios. -/
def orderC1 : Order := NewOrder "O1" "BTCUSDT" SideBuy TypeMarket 1 0 10

/-- A LIMIT order with price zero and all other fields well-formed. -/
def orderC4 : Order := NewOrder "O2" "BTCUSDT" SideBuy TypeLimit 1 0 7

/-- The request that decodes to `orderC4`. -/
def reqC4 : OrderRequest :=
  { id := "O2", symbol := "BTCUSDT", side := "BUY", type := "LIMIT",
    quantity := 1, price := 0 }

/-- A request with an empty order id and otherwise well-formed fields. -/
def reqEmptyId : OrderRequest :=
  { id := "", symbol := "BTCUSDT", side := "BUY", type := "MARKET",
    quantity := 1, price := 0 }

/-- Accumulator of one relay cycle: the database, the ids handed to the
publisher in loop order (every batch row is attempted), and the ids whose
publish call returned success. -/
structure RelayAcc where
  db : Db
  attempted : List Nat
  published : List Nat
deriving DecidableEq

/-- Body of the `for _, event := range events` loop of `StartOutboxRelay`
(orchestrator.go): publish the event; on publish failure leave the row
untouched and continue to the next row; on publish success mark the row
processed, where a failed mark is only logged and the loop continues. -/
def relayStep (pubOk markOk : Nat → Bool) (now : Nat) (acc : RelayAcc) (e : OutboxEvent) :
    RelayAcc :=
  if pubOk e.id then
    if markOk e.id then
      { db := MarkOutboxEventProcessed now acc.db e.id,
        attempted := acc.attempted ++ [e.id],
        published := acc.published ++ [e.id] }
    else
      { acc with attempted := acc.attempted ++ [e.id],
                 published := acc.published ++ [e.id] }
  else { acc with attempted := acc.attempted ++ [e.id] }

/-- One tick of `StartOutboxRelay` (orchestrator.go): fetch up to 100
unprocessed events, oldest first, then run the publish loop over the fetched
batch. -/
def relayCycle (pubOk markOk : Nat → Bool) (now : Nat) (db : Db) : RelayAcc :=
  (GetUnprocessedOutboxEvents db 100).foldl (relayStep pubOk markOk now)
    { db := db, attempted := [], published := [] }

/-- Environment of one relay tick: which publish calls succeed, which mark
calls succeed, and the tick's clock. -/
structure RelayOracle where
  pubOk : Nat → Bool
  markOk : Nat → Bool
  now : Nat

/-- The relay loop run for finitely many ticks — the ticker fires once per
oracle.  Returns the final database and the ids published successfully, in
publication order. -/
def relayRun : List RelayOracle → Db → Db × List Nat
  | [], db => (db, [])
  | oc :: ocs, db =>
    let r := relayCycle oc.pubOk oc.markOk oc.now db
    let rest := relayRun ocs r.db
    (rest.1, r.published ++ rest.2)

/-- The effect of `MarkOutboxEventProcessed` on a single row. -/
def mark1 (now : Nat) (e : OutboxEvent) : OutboxEvent :=
  { e with processed := true, processedAt := some now }

/-- Marks exactly the rows whose id lies in `S`; used to describe the
aggregate effect of a relay cycle on the events table. -/
def markIds (now : Nat) (S : List Nat) (e : OutboxEvent) : OutboxEvent :=
  if e.id ∈ S then mark1 now e else e

/-- Ids of the batch rows whose publish and mark calls both succeed. -/
def marksOf (pubOk markOk : Nat → Bool) (batch : List OutboxEvent) : List Nat :=
  (batch.filter (fun e => pubOk e.id && markOk e.id)).map (fun e => e.id)

/-- Result of one `ProcessOrder` call (orchestrator.go): the database it
leaves behind, the orders handed to `UpdateOrder` in call order, the number
of `ExecuteTrade` invocations, whether the best-effort completion publish
went out, and the returned error, if any. -/
structure ProcResult where
  db : Db
  updates : List Order
  exchangeCalls : Nat
  completionPublished : Bool
  result : Option String
deriving DecidableEq

/-- `ProcessOrder` (orchestrator.go): re-read the order, check the
transition to EXECUTING, persist `status := EXECUTING` (without touching
`updatedAt`), call the exchange exactly once; on exchange failure persist
`status := FAILED` with `updatedAt := now` and surface the error; on
success persist `status := COMPLETED` with `updatedAt := now` and attempt
the best-effort completion publish, whose failure is only logged. -/
def ProcessOrder (exchangeOk upd1Ok upd2Ok publishOk : Bool) (now : Nat)
    (db : Db) (orderID : String) : ProcResult :=
  match GetOrder db orderID with
  | none =>
    { db := db, updates := [], exchangeCalls := 0,
      completionPublished := false, result := some "failed to get order" }
  | some order =>
    if !(Order.CanTransitionTo order StatusExecuting) then
      { db := db, updates := [], exchangeCalls := 0,
        completionPublished := false,
        result := some "order cannot transition to EXECUTING" }
    else
      if !upd1Ok then
        { db := db, updates := [{ order with status := StatusExecuting }],
          exchangeCalls := 0, completionPublished := false,
          result := some "failed to update order status" }
      else
        if !exchangeOk then
          if !upd2Ok then
            { db := UpdateOrder db { order with status := StatusExecuting },
              updates := [{ order with status := StatusExecuting },
                          { order with status := StatusFailed, updatedAt := now }],
              exchangeCalls := 1, completionPublished := false,
              result := some "trade failed and update failed" }
          else
            { db := UpdateOrder (UpdateOrder db { order with status := StatusExecuting })
                      { order with status := StatusFailed, updatedAt := now },
              updates := [{ order with status := StatusExecuting },
                          { order with status := StatusFailed, updatedAt := now }],
              exchangeCalls := 1, completionPublished := false,
              result := some "trade execution failed" }
        else
          if !upd2Ok then
            { db := UpdateOrder db { order with status := StatusExecuting },
              updates := [{ order with status := StatusExecuting },
                          { order with status := StatusCompleted, updatedAt := now }],
              exchangeCalls := 1, completionPublished := false,
              result := some "failed to update order status" }
          else
            { db := UpdateOrder (UpdateOrder db { order with status := StatusExecuting })
                      { order with status := StatusCompleted, updatedAt := now },
              updates := [{ order with status := StatusExecuting },
                          { order with status := StatusCompleted, updatedAt := now }],
              exchangeCalls := 1, completionPublished := publishOk,
              result := none }

/-- Three unprocessed relay events with distinct creation times, payloads
snapshotting `orderC1`. -/
def evR1 : OutboxEvent :=
  { id := 1, aggregate := "Order", aggregateID := "A1",
    eventType := "OrderSubmitted", payload := orderC1, processed := false,
    createdAt := 11, processedAt := none }

/-- Second relay event, created after `evR1`. -/
def evR2 : OutboxEvent :=
  { id := 2, aggregate := "Order", aggregateID := "A2",
    eventType := "OrderSubmitted", payload := orderC1, processed := false,
    createdAt := 12, processedAt := none }

/-- Third relay event, created after `evR2`. -/
def evR3 : OutboxEvent :=
  { id := 3, aggregate := "Order", aggregateID := "A3",
    eventType := "OrderSubmitted", payload := orderC1, processed := false,
    createdAt := 13, processedAt := none }

/-- A database whose events table stores the three relay events out of
creation order. -/
def dbRelay : Db := { orders := [], events := [evR3, evR1, evR2], nextEventId := 4 }

/-- Publish oracle that fails exactly for the event with id 2. -/
def pubFail2 : Nat → Bool := fun i => i ≠ 2

/-- A relay oracle whose publish calls all fail (broker down). -/
def ocNone : RelayOracle :=
  { pubOk := fun _ => false, markOk := fun _ => true, now := 20 }

/-- A PENDING order persisted with `updatedAt = 5`. -/
def orderP : Order := NewOrder "O1" "BTCUSDT" SideBuy TypeMarket 1 0 5

/-- A database holding only `orderP`. -/
def dbP : Db := { orders := [orderP], events := [], nextEventId := 1 }

end Nexus

namespace Nexus

lemma containsStatus_nil (s : String) : containsStatus [] s = false := rfl

lemma containsStatus_pair (a b s : String) :
    containsStatus [a, b] s = true ↔ s = a ∨ s = b := by
  simp only [containsStatus]
  split_ifs with h1 h2
  · subst h1; simp
  · subst h2; simp
  · simp only [Bool.false_eq_true, false_iff]
    rintro (rfl | rfl)
    · exact h1 rfl
    · exact h2 rfl

end Nexus

/-- C2: `CanTransitionTo(current, target)` returns true exactly for the four
pairs (PENDING, EXECUTING), (PENDING, FAILED), (EXECUTING, COMPLETED),
(EXECUTING, FAILED), and false for every other pair of status strings,
including self-transitions and any pair whose current status is COMPLETED
or FAILED. -/
theorem Nexus.canTransitionTo_true_iff (current target : String) :
    Nexus.CanTransitionTo current target = true ↔
      ((current = Nexus.StatusPending ∧ target = Nexus.StatusExecuting) ∨
       (current = Nexus.StatusPending ∧ target = Nexus.StatusFailed) ∨
       (current = Nexus.StatusExecuting ∧ target = Nexus.StatusCompleted) ∨
       (current = Nexus.StatusExecuting ∧ target = Nexus.StatusFailed)) := by
  unfold Nexus.CanTransitionTo Nexus.transitionsFor
  split_ifs with h1 h2 h3 h4
  · subst h1
    rw [Nexus.containsStatus_pair]
    simp [Nexus.StatusPending, Nexus.StatusExecuting, Nexus.StatusCompleted,
      Nexus.StatusFailed]
  · subst h2
    rw [Nexus.containsStatus_pair]
    simp [Nexus.StatusPending, Nexus.StatusExecuting, Nexus.StatusCompleted,
      Nexus.StatusFailed]
  · subst h3
    rw [Nexus.containsStatus_nil]
    simp [Nexus.StatusPending, Nexus.StatusExecuting, Nexus.StatusCompleted,
      Nexus.StatusFailed]
  · subst h4
    rw [Nexus.containsStatus_nil]
    simp [Nexus.StatusPending, Nexus.StatusExecuting, Nexus.StatusCompleted,
      Nexus.StatusFailed]
  · rw [Nexus.containsStatus_nil]
    simp [h1, h2]

/-- C10: `CanTransitionTo` is total over arbitrary status strings and allows
no transition out of a status that is not one of the four defined constants. -/
theorem Nexus.canTransitionTo_unknown_false (s t : String)
    (h1 : s ≠ Nexus.StatusPending) (h2 : s ≠ Nexus.StatusExecuting)
    (h3 : s ≠ Nexus.StatusCompleted) (h4 : s ≠ Nexus.StatusFailed) :
    Nexus.CanTransitionTo s t = false := by
  unfold Nexus.CanTransitionTo Nexus.transitionsFor
  simp [h1, h2, h3, h4, Nexus.containsStatus_nil]

/-- Witness for C10 at the empty status string and target EXECUTING. -/
theorem Nexus.canTransitionTo_unknown_false_witness :
    ("" ≠ Nexus.StatusPending) ∧
      Nexus.CanTransitionTo "" Nexus.StatusExecuting = false :=
  ⟨by decide,
   Nexus.canTransitionTo_unknown_false "" Nexus.StatusExecuting
     (by decide) (by decide) (by decide) (by decide)⟩

/-- Claim C1 (code bug): `SubmitOrder` does not write the order row and the
outbox row atomically.  At the failing input — a well-formed order whose
order insert succeeds while the outbox insert fails — the call returns an
error, yet the Order row stays committed and visible with no OutboxEvent
row, contradicting the claimed all-or-nothing behaviour. -/
theorem Nexus.submitOrder_partial_write_on_outbox_failure :
    (Nexus.SubmitOrder true false 10 Nexus.dbEmpty Nexus.orderC1).2.isSome = true ∧
    (Nexus.SubmitOrder true false 10 Nexus.dbEmpty Nexus.orderC1).1.orders =
      [Nexus.orderC1] ∧
    (Nexus.SubmitOrder true false 10 Nexus.dbEmpty Nexus.orderC1).1.events = [] :=
  ⟨rfl, rfl, rfl⟩

/-- Claim C3: for every malformed request — empty id, empty symbol, or
non-positive quantity — the `createOrder` handler answers 400 and leaves the
database untouched: no Order row and no OutboxEvent row is created. -/
theorem Nexus.createOrder_rejects_malformed (orderOk eventOk : Bool) (now : Nat)
    (db : Nexus.Db) (req : Nexus.OrderRequest)
    (h : req.id = "" ∨ req.symbol = "" ∨ req.quantity ≤ 0) :
    Nexus.createOrder orderOk eventOk now db req = (db, 400) := by
  unfold Nexus.createOrder Nexus.NewOrder Nexus.IsValid
  rcases h with h | h | h
  · simp [h]
  · simp [h]
  · have h2 : ¬ (0 : ℚ) < req.quantity := not_lt.mpr h
    simp [h2]

/-- Witness for C3 at a concrete request with an empty id. -/
theorem Nexus.createOrder_rejects_malformed_witness :
    (Nexus.reqEmptyId.id = "" ∨ Nexus.reqEmptyId.symbol = "" ∨
      Nexus.reqEmptyId.quantity ≤ 0) ∧
    Nexus.createOrder true true 3 Nexus.dbEmpty Nexus.reqEmptyId =
      (Nexus.dbEmpty, 400) :=
  ⟨Or.inl rfl,
   Nexus.createOrder_rejects_malformed true true 3 Nexus.dbEmpty Nexus.reqEmptyId
     (Or.inl rfl)⟩

/-- Claim C4 (counterexample): a LIMIT order with price zero and otherwise
well-formed fields is judged valid by `IsValid` and accepted (HTTP 202) by
the `createOrder` handler, refuting the claim that a LIMIT order with
non-positive price is rejected. -/
theorem Nexus.limit_order_zero_price_accepted :
    Nexus.orderC4.type = Nexus.TypeLimit ∧ Nexus.orderC4.price = 0 ∧
    Nexus.IsValid Nexus.orderC4 = true ∧
    (Nexus.createOrder true true 7 Nexus.dbEmpty Nexus.reqC4).2 = 202 := by
  refine ⟨rfl, rfl, ?_, ?_⟩ <;> rfl

/-- Claim C4 (amended): order validation ignores both the price and the type
of the order — replacing them changes nothing — and judges an order valid
exactly when its id and symbol are non-empty and its quantity is positive;
in particular a LIMIT order with zero or negative price passes validation. -/
theorem Nexus.isValid_ignores_price_and_type (o : Nexus.Order) (p : ℚ) (t : String) :
    Nexus.IsValid { o with price := p, type := t } = Nexus.IsValid o ∧
      (Nexus.IsValid o = true ↔ (o.id ≠ "" ∧ o.symbol ≠ "" ∧ 0 < o.quantity)) := by
  constructor
  · rfl
  · unfold Nexus.IsValid
    simp [Bool.and_eq_true, decide_eq_true_eq, and_assoc]

namespace Nexus

lemma mem_insertByCreatedAt (e x : OutboxEvent) (l : List OutboxEvent) :
    x ∈ insertByCreatedAt e l ↔ x = e ∨ x ∈ l := by
  induction l with
  | nil => simp [insertByCreatedAt]
  | cons a l ih =>
    unfold insertByCreatedAt
    split_ifs with h
    · simp [List.mem_cons]
    · simp only [List.mem_cons, ih]
      tauto

lemma mem_sortByCreatedAt (x : OutboxEvent) (l : List OutboxEvent) :
    x ∈ sortByCreatedAt l ↔ x ∈ l := by
  induction l with
  | nil => simp [sortByCreatedAt]
  | cons a l ih => simp [sortByCreatedAt, mem_insertByCreatedAt, ih]

lemma pairwise_insertByCreatedAt (e : OutboxEvent) (l : List OutboxEvent)
    (h : l.Pairwise (fun a b => a.createdAt ≤ b.createdAt)) :
    (insertByCreatedAt e l).Pairwise (fun a b => a.createdAt ≤ b.createdAt) := by
  induction l with
  | nil => simp [insertByCreatedAt]
  | cons a l ih =>
    rcases List.pairwise_cons.mp h with ⟨ha, hl⟩
    unfold insertByCreatedAt
    split_ifs with hle
    · refine List.pairwise_cons.mpr ⟨?_, h⟩
      intro b hb
      rcases List.mem_cons.mp hb with rfl | hb
      · exact hle
      · exact le_trans hle (ha b hb)
    · refine List.pairwise_cons.mpr ⟨?_, ih hl⟩
      intro b hb
      rcases (mem_insertByCreatedAt e b l).mp hb with rfl | hb
      · omega
      · exact ha b hb

lemma pairwise_sortByCreatedAt (l : List OutboxEvent) :
    (sortByCreatedAt l).Pairwise (fun a b => a.createdAt ≤ b.createdAt) := by
  induction l with
  | nil => simp [sortByCreatedAt]
  | cons a l ih => exact pairwise_insertByCreatedAt a (sortByCreatedAt l) ih

lemma batch_processed_false (db : Db) (limit : Nat) (e : OutboxEvent)
    (he : e ∈ GetUnprocessedOutboxEvents db limit) : e.processed = false := by
  unfold GetUnprocessedOutboxEvents at he
  have h1 := List.take_subset _ _ he
  rw [mem_sortByCreatedAt] at h1
  have h2 := List.mem_filter.mp h1
  simpa using h2.2

lemma batch_subset_events (db : Db) (limit : Nat) (e : OutboxEvent)
    (he : e ∈ GetUnprocessedOutboxEvents db limit) : e ∈ db.events := by
  unfold GetUnprocessedOutboxEvents at he
  have h1 := List.take_subset _ _ he
  rw [mem_sortByCreatedAt] at h1
  exact (List.mem_filter.mp h1).1

lemma markIds_id (now : Nat) (S : List Nat) (e : OutboxEvent) :
    (markIds now S e).id = e.id := by
  unfold markIds mark1
  split_ifs <;> rfl

lemma markIds_comp (now : Nat) (i : Nat) (S : List Nat) (e : OutboxEvent) :
    markIds now S (markIds now [i] e) = markIds now (i :: S) e := by
  by_cases h : e.id = i
  · by_cases h2 : e.id ∈ S <;> simp [markIds, mark1, h, h2]
  · by_cases h2 : e.id ∈ S <;> simp [markIds, mark1, h, h2]

lemma markOutbox_events (now : Nat) (db : Db) (i : Nat) :
    (MarkOutboxEventProcessed now db i).events = db.events.map (markIds now [i]) := by
  show db.events.map
      (fun e => if e.id = i then { e with processed := true, processedAt := some now } else e)
    = db.events.map (markIds now [i])
  refine List.map_congr_left (fun e _ => ?_)
  by_cases h : e.id = i <;> simp [markIds, mark1, h]

lemma marksOf_cons (pubOk markOk : Nat → Bool) (b : OutboxEvent) (bs : List OutboxEvent) :
    marksOf pubOk markOk (b :: bs) =
      if pubOk b.id && markOk b.id then b.id :: marksOf pubOk markOk bs
      else marksOf pubOk markOk bs := by
  unfold marksOf
  rw [List.filter_cons]
  split_ifs with h <;> simp

lemma foldl_relayStep_events (pubOk markOk : Nat → Bool) (now : Nat) (bs : List OutboxEvent) :
    ∀ acc : RelayAcc,
      ((bs.foldl (relayStep pubOk markOk now) acc).db).events
        = acc.db.events.map (markIds now (marksOf pubOk markOk bs)) := by
  induction bs with
  | nil =>
    intro acc
    simp only [List.foldl_nil]
    exact (List.map_id'' (fun e => by simp [marksOf, markIds]) _).symm
  | cons b bs ih =>
    intro acc
    rw [List.foldl_cons, ih, marksOf_cons]
    by_cases hp : pubOk b.id = true
    · by_cases hm : markOk b.id = true
      · have hstep : relayStep pubOk markOk now acc b =
            { db := MarkOutboxEventProcessed now acc.db b.id,
              attempted := acc.attempted ++ [b.id],
              published := acc.published ++ [b.id] } := by
          simp [relayStep, hp, hm]
        rw [hstep, if_pos (by simp [hp, hm])]
        show (MarkOutboxEventProcessed now acc.db b.id).events.map _ = _
        rw [markOutbox_events, List.map_map]
        congr 1
        funext e
        exact markIds_comp now b.id (marksOf pubOk markOk bs) e
      · rw [Bool.not_eq_true] at hm
        have hstep : relayStep pubOk markOk now acc b =
            { acc with attempted := acc.attempted ++ [b.id],
                       published := acc.published ++ [b.id] } := by
          simp [relayStep, hp, hm]
        rw [hstep, if_neg (by simp [hm])]
    · rw [Bool.not_eq_true] at hp
      have hstep : relayStep pubOk markOk now acc b =
          { acc with attempted := acc.attempted ++ [b.id] } := by
        simp [relayStep, hp]
      rw [hstep, if_neg (by simp [hp])]

lemma foldl_relayStep_attempted (pubOk markOk : Nat → Bool) (now : Nat)
    (bs : List OutboxEvent) :
    ∀ acc : RelayAcc,
      (bs.foldl (relayStep pubOk markOk now) acc).attempted
        = acc.attempted ++ bs.map (fun e => e.id) := by
  induction bs with
  | nil => intro acc; simp
  | cons b bs ih =>
    intro acc
    rw [List.foldl_cons, ih]
    have hstep : (relayStep pubOk markOk now acc b).attempted = acc.attempted ++ [b.id] := by
      unfold relayStep
      split_ifs <;> rfl
    rw [hstep]
    simp

lemma foldl_relayStep_published (pubOk markOk : Nat → Bool) (now : Nat)
    (bs : List OutboxEvent) :
    ∀ acc : RelayAcc,
      (bs.foldl (relayStep pubOk markOk now) acc).published
        = acc.published ++ (bs.filter (fun e => pubOk e.id)).map (fun e => e.id) := by
  induction bs with
  | nil => intro acc; simp
  | cons b bs ih =>
    intro acc
    rw [List.foldl_cons, ih, List.filter_cons]
    by_cases hp : pubOk b.id = true
    · have hstep : (relayStep pubOk markOk now acc b).published =
          acc.published ++ [b.id] := by
        unfold relayStep
        rw [if_pos hp]
        split_ifs <;> rfl
      rw [hstep, if_pos hp]
      simp
    · have hstep : (relayStep pubOk markOk now acc b).published = acc.published := by
        unfold relayStep
        rw [if_neg hp]
      rw [hstep, if_neg hp]

lemma relayCycle_events (pubOk markOk : Nat → Bool) (now : Nat) (db : Db) :
    (relayCycle pubOk markOk now db).db.events
      = db.events.map
          (markIds now (marksOf pubOk markOk (GetUnprocessedOutboxEvents db 100))) := by
  unfold relayCycle
  exact foldl_relayStep_events pubOk markOk now _ _

lemma relayCycle_attempted (pubOk markOk : Nat → Bool) (now : Nat) (db : Db) :
    (relayCycle pubOk markOk now db).attempted
      = (GetUnprocessedOutboxEvents db 100).map (fun e => e.id) := by
  unfold relayCycle
  rw [foldl_relayStep_attempted]
  simp

lemma relayCycle_published (pubOk markOk : Nat → Bool) (now : Nat) (db : Db) :
    (relayCycle pubOk markOk now db).published
      = ((GetUnprocessedOutboxEvents db 100).filter (fun e => pubOk e.id)).map
          (fun e => e.id) := by
  unfold relayCycle
  rw [foldl_relayStep_published]
  simp

lemma marksOf_mem_published (pubOk markOk : Nat → Bool) (now : Nat) (db : Db) (i : Nat)
    (h : i ∈ marksOf pubOk markOk (GetUnprocessedOutboxEvents db 100)) :
    i ∈ (relayCycle pubOk markOk now db).published := by
  rw [relayCycle_published]
  unfold marksOf at h
  rcases List.mem_map.mp h with ⟨b, hb, hbid⟩
  rcases List.mem_filter.mp hb with ⟨hbm, hcond⟩
  have hpub : pubOk b.id = true := by
    have hc : (pubOk b.id && markOk b.id) = true := by simpa using hcond
    exact (Bool.and_eq_true_iff.mp hc).1
  exact List.mem_map.mpr ⟨b, List.mem_filter.mpr ⟨hbm, by simpa using hpub⟩, hbid⟩

lemma relayCycle_processed_source (pubOk markOk : Nat → Bool) (now : Nat) (db : Db)
    (e : OutboxEvent) (he : e ∈ (relayCycle pubOk markOk now db).db.events)
    (hp : e.processed = true) :
    e.id ∈ (relayCycle pubOk markOk now db).published ∨
      ∃ e0, e0 ∈ db.events ∧ e0.id = e.id ∧ e0.processed = true := by
  rw [relayCycle_events] at he
  rcases List.mem_map.mp he with ⟨e0, he0, rfl⟩
  by_cases hin : e0.id ∈ marksOf pubOk markOk (GetUnprocessedOutboxEvents db 100)
  · left
    rw [markIds_id]
    exact marksOf_mem_published pubOk markOk now db e0.id hin
  · right
    have heq : markIds now (marksOf pubOk markOk (GetUnprocessedOutboxEvents db 100)) e0
        = e0 := by
      simp [markIds, hin]
    refine ⟨e0, he0, (markIds_id _ _ _).symm, ?_⟩
    rw [heq] at hp
    exact hp

lemma relayCycle_unpublished_untouched (pubOk markOk : Nat → Bool) (now : Nat) (db : Db)
    (e0 : OutboxEvent) (he0 : e0 ∈ db.events) (hfail : pubOk e0.id = false) :
    e0 ∈ (relayCycle pubOk markOk now db).db.events := by
  rw [relayCycle_events]
  have hnot : e0.id ∉ marksOf pubOk markOk (GetUnprocessedOutboxEvents db 100) := by
    intro hmem
    unfold marksOf at hmem
    rcases List.mem_map.mp hmem with ⟨b, hb, hbid⟩
    rcases List.mem_filter.mp hb with ⟨hbm, hcond⟩
    have hc : pubOk b.id && markOk b.id = true := by simpa using hcond
    rw [hbid] at hc
    simp [hfail] at hc
  exact List.mem_map.mpr ⟨e0, he0, by simp [markIds, hnot]⟩

lemma relayRun_cons_fst (oc : RelayOracle) (ocs : List RelayOracle) (db : Db) :
    (relayRun (oc :: ocs) db).1
      = (relayRun ocs (relayCycle oc.pubOk oc.markOk oc.now db).db).1 := rfl

lemma relayRun_cons_snd (oc : RelayOracle) (ocs : List RelayOracle) (db : Db) :
    (relayRun (oc :: ocs) db).2
      = (relayCycle oc.pubOk oc.markOk oc.now db).published ++
          (relayRun ocs (relayCycle oc.pubOk oc.markOk oc.now db).db).2 := rfl

end Nexus

/-- Claim C5: each relay cycle fetches only rows with processed = false, at
most 100 of them (the batch size the relay passes), ordered by createdAt
ascending, and hands them to the publisher in exactly that fetch order,
whatever the storage order of the events table. -/
theorem Nexus.relay_fetch_order_and_publish (db : Nexus.Db)
    (pubOk markOk : Nat → Bool) (now : Nat) :
    (Nexus.GetUnprocessedOutboxEvents db 100).all (fun e => !e.processed) = true ∧
    (Nexus.GetUnprocessedOutboxEvents db 100).length ≤ 100 ∧
    (Nexus.GetUnprocessedOutboxEvents db 100).Pairwise
      (fun a b => a.createdAt ≤ b.createdAt) ∧
    (Nexus.relayCycle pubOk markOk now db).attempted =
      (Nexus.GetUnprocessedOutboxEvents db 100).map (fun e => e.id) := by
  refine ⟨?_, ?_, ?_, Nexus.relayCycle_attempted pubOk markOk now db⟩
  · rw [List.all_eq_true]
    intro e he
    simpa using Nexus.batch_processed_false db 100 e he
  · exact List.length_take_le _ _
  · exact List.Pairwise.sublist (List.take_sublist _ _)
      (Nexus.pairwise_sortByCreatedAt _)

/-- Claim C6: if the publish of one batch row fails, that row is left
untouched in the events table — still processed = false — while every batch
row whose publish succeeds is marked processed, so the relay continues past
the failing row. -/
theorem Nexus.relay_failure_isolation (db : Nexus.Db) (pubOk : Nat → Bool)
    (now : Nat) (e : Nexus.OutboxEvent)
    (he : e ∈ Nexus.GetUnprocessedOutboxEvents db 100) :
    (pubOk e.id = false → e.processed = false ∧
      e ∈ (Nexus.relayCycle pubOk (fun _ => true) now db).db.events) ∧
    (pubOk e.id = true →
      Nexus.mark1 now e ∈ (Nexus.relayCycle pubOk (fun _ => true) now db).db.events) := by
  constructor
  · intro hfail
    refine ⟨Nexus.batch_processed_false db 100 e he, ?_⟩
    exact Nexus.relayCycle_unpublished_untouched pubOk (fun _ => true) now db e
      (Nexus.batch_subset_events db 100 e he) hfail
  · intro hsucc
    rw [Nexus.relayCycle_events]
    have hin : e.id ∈ Nexus.marksOf pubOk (fun _ => true)
        (Nexus.GetUnprocessedOutboxEvents db 100) := by
      unfold Nexus.marksOf
      exact List.mem_map.mpr ⟨e, List.mem_filter.mpr ⟨he, by simp [hsucc]⟩, rfl⟩
    exact List.mem_map.mpr
      ⟨e, Nexus.batch_subset_events db 100 e he, by simp [Nexus.markIds, hin]⟩

/-- Witness for C6 on a three-row batch stored out of order, where publishing
the row with id 2 fails: rows 1 and 3 end up marked processed and row 2
remains in the table unchanged and unprocessed. -/
theorem Nexus.relay_failure_isolation_witness :
    Nexus.evR2 ∈ Nexus.GetUnprocessedOutboxEvents Nexus.dbRelay 100 ∧
    Nexus.pubFail2 Nexus.evR2.id = false ∧
    Nexus.evR2.processed = false ∧
    Nexus.evR2 ∈ (Nexus.relayCycle Nexus.pubFail2 (fun _ => true) 50 Nexus.dbRelay).db.events ∧
    Nexus.mark1 50 Nexus.evR1 ∈
      (Nexus.relayCycle Nexus.pubFail2 (fun _ => true) 50 Nexus.dbRelay).db.events ∧
    Nexus.mark1 50 Nexus.evR3 ∈
      (Nexus.relayCycle Nexus.pubFail2 (fun _ => true) 50 Nexus.dbRelay).db.events := by
  have h2 := (Nexus.relay_failure_isolation Nexus.dbRelay Nexus.pubFail2 50 Nexus.evR2
    (by decide)).1 (by decide)
  have h1 := (Nexus.relay_failure_isolation Nexus.dbRelay Nexus.pubFail2 50 Nexus.evR1
    (by decide)).2 (by decide)
  have h3 := (Nexus.relay_failure_isolation Nexus.dbRelay Nexus.pubFail2 50 Nexus.evR3
    (by decide)).2 (by decide)
  exact ⟨by decide, by decide, h2.1, h2.2, h1, h3⟩

/-- Claim C7: over any finite run of relay cycles, every event row that ends
up with processed = true either started processed or its id was handed to
the publisher by a publish call that returned success; and a row whose
publish calls all fail stays in the table unchanged, keeping
processed = false for the whole run. -/
theorem Nexus.relay_processed_only_if_published (ocs : List Nexus.RelayOracle)
    (db0 : Nexus.Db) :
    (∀ e ∈ (Nexus.relayRun ocs db0).1.events, e.processed = true →
      e.id ∈ (Nexus.relayRun ocs db0).2 ∨
        ∃ e0, e0 ∈ db0.events ∧ e0.id = e.id ∧ e0.processed = true) ∧
    (∀ e0 ∈ db0.events, e0.processed = false →
      (∀ oc ∈ ocs, oc.pubOk e0.id = false) →
        e0 ∈ (Nexus.relayRun ocs db0).1.events) := by
  induction ocs generalizing db0 with
  | nil =>
    constructor
    · intro e he hp
      exact Or.inr ⟨e, he, rfl, hp⟩
    · intro e0 he0 _ _
      exact he0
  | cons oc ocs ih =>
    constructor
    · intro e he hp
      rw [Nexus.relayRun_cons_fst] at he
      rw [Nexus.relayRun_cons_snd]
      rcases (ih (Nexus.relayCycle oc.pubOk oc.markOk oc.now db0).db).1 e he hp with
        hmem | ⟨e1, he1, hid, hp1⟩
      · exact Or.inl (List.mem_append.mpr (Or.inr hmem))
      · rcases Nexus.relayCycle_processed_source oc.pubOk oc.markOk oc.now db0 e1 he1 hp1
          with h | ⟨e0, he0, hid0, hp0⟩
        · left
          rw [hid] at h
          exact List.mem_append.mpr (Or.inl h)
        · exact Or.inr ⟨e0, he0, hid0.trans hid, hp0⟩
    · intro e0 he0 hproc hall
      rw [Nexus.relayRun_cons_fst]
      have h1 : e0 ∈ (Nexus.relayCycle oc.pubOk oc.markOk oc.now db0).db.events :=
        Nexus.relayCycle_unpublished_untouched oc.pubOk oc.markOk oc.now db0 e0 he0
          (hall oc (List.mem_cons_self _ _))
      exact (ih _).2 e0 h1 hproc (fun oc2 h2 => hall oc2 (List.mem_cons_of_mem _ h2))

/-- Witness for C7: with the broker down for a whole cycle (every publish
fails), an initially unprocessed row survives the run unchanged, still
unprocessed. -/
theorem Nexus.relay_processed_only_if_published_witness :
    Nexus.evR1 ∈ Nexus.dbRelay.events ∧ Nexus.evR1.processed = false ∧
    Nexus.evR1 ∈ (Nexus.relayRun [Nexus.ocNone] Nexus.dbRelay).1.events := by
  refine ⟨by decide, rfl, ?_⟩
  refine (Nexus.relay_processed_only_if_published [Nexus.ocNone] Nexus.dbRelay).2
    Nexus.evR1 (by decide) rfl ?_
  intro oc hoc
  rcases List.mem_singleton.mp hoc with rfl
  rfl

namespace Nexus

lemma find?_replace (i : String) (o : Order) (ho : o.id = i) :
    ∀ (l : List Order) (x : Order),
      l.find? (fun y => y.id = i) = some x →
      (l.map (fun y => if y.id = o.id then o else y)).find? (fun y => y.id = i) = some o := by
  intro l
  induction l with
  | nil =>
    intro x hx
    simp at hx
  | cons a l ih =>
    intro x hx
    by_cases ha : a.id = i
    · have h1 : (if a.id = o.id then o else a) = o := by
        rw [ho]
        simp [ha]
      rw [List.map_cons, h1]
      exact List.find?_cons_of_pos _ (by simp [ho])
    · have h2 : (if a.id = o.id then o else a) = a := by
        rw [ho]
        simp [ha]
      rw [List.map_cons, h2]
      rw [List.find?_cons_of_neg _ (by simp [ha])]
      have hx2 : l.find? (fun y => y.id = i) = some x := by
        rwa [List.find?_cons_of_neg _ (by simp [ha])] at hx
      exact ih x hx2

lemma getOrder_updateOrder (db : Db) (o x : Order) (h : GetOrder db o.id = some x) :
    GetOrder (UpdateOrder db o) o.id = some o := by
  unfold GetOrder at h
  have hany : (db.orders.any (fun y => y.id = o.id)) = true := by
    have hmem := List.mem_of_find?_eq_some h
    have hpx := List.find?_some h
    exact List.any_eq_true.mpr ⟨x, hmem, hpx⟩
  unfold UpdateOrder GetOrder
  rw [if_pos hany]
  exact find?_replace o.id o rfl db.orders x h

end Nexus

/-- Claim C8: when the exchange call fails while a worker processes a
PENDING order (persistence succeeding), `ProcessOrder` persists the order as
FAILED with `updatedAt = now`, surfaces the failure as an error, invokes the
exchange exactly once — no retry — and the resulting FAILED status is
terminal: no transition out of it is allowed. -/
theorem Nexus.processOrder_exchange_failure (publishOk : Bool) (now : Nat)
    (db : Nexus.Db) (orderID : String) (order : Nexus.Order)
    (hget : Nexus.GetOrder db orderID = some order)
    (hstatus : order.status = Nexus.StatusPending) :
    (Nexus.ProcessOrder false true true publishOk now db orderID).result =
      some "trade execution failed" ∧
    (Nexus.ProcessOrder false true true publishOk now db orderID).exchangeCalls = 1 ∧
    Nexus.GetOrder (Nexus.ProcessOrder false true true publishOk now db orderID).db orderID =
      some { order with status := Nexus.StatusFailed, updatedAt := now } ∧
    (∀ t, Nexus.CanTransitionTo Nexus.StatusFailed t = false) := by
  have hid : order.id = orderID := by
    have := List.find?_some hget
    simpa using this
  have hcan : Nexus.Order.CanTransitionTo order Nexus.StatusExecuting = true := by
    unfold Nexus.Order.CanTransitionTo
    rw [hstatus]
    rfl
  have hPO : Nexus.ProcessOrder false true true publishOk now db orderID =
      { db := Nexus.UpdateOrder
                (Nexus.UpdateOrder db { order with status := Nexus.StatusExecuting })
                { order with status := Nexus.StatusFailed, updatedAt := now },
        updates := [{ order with status := Nexus.StatusExecuting },
                    { order with status := Nexus.StatusFailed, updatedAt := now }],
        exchangeCalls := 1, completionPublished := false,
        result := some "trade execution failed" } := by
    unfold Nexus.ProcessOrder
    rw [hget]
    simp [hcan]
  rw [hPO]
  refine ⟨rfl, rfl, ?_, ?_⟩
  · have h1 : Nexus.GetOrder db
        ({ order with status := Nexus.StatusExecuting } : Nexus.Order).id = some order := by
      show Nexus.GetOrder db order.id = some order
      rw [hid]
      exact hget
    have h2 := Nexus.getOrder_updateOrder db
      { order with status := Nexus.StatusExecuting } order h1
    have h4 := Nexus.getOrder_updateOrder
      (Nexus.UpdateOrder db { order with status := Nexus.StatusExecuting })
      { order with status := Nexus.StatusFailed, updatedAt := now }
      { order with status := Nexus.StatusExecuting } h2
    show Nexus.GetOrder _ orderID = _
    rw [← hid]
    exact h4
  · intro t
    rfl

/-- Witness for C8 on a concrete database holding one PENDING order. -/
theorem Nexus.processOrder_exchange_failure_witness :
    Nexus.GetOrder Nexus.dbP "O1" = some Nexus.orderP ∧
    Nexus.orderP.status = Nexus.StatusPending ∧
    (Nexus.ProcessOrder false true true true 100 Nexus.dbP "O1").result =
      some "trade execution failed" ∧
    (Nexus.ProcessOrder false true true true 100 Nexus.dbP "O1").exchangeCalls = 1 ∧
    Nexus.GetOrder (Nexus.ProcessOrder false true true true 100 Nexus.dbP "O1").db "O1" =
      some { Nexus.orderP with status := Nexus.StatusFailed, updatedAt := 100 } ∧
    Nexus.CanTransitionTo Nexus.StatusFailed Nexus.StatusExecuting = false := by
  have h := Nexus.processOrder_exchange_failure true 100 Nexus.dbP "O1" Nexus.orderP rfl rfl
  exact ⟨rfl, rfl, h.1, h.2.1, h.2.2.1, h.2.2.2 Nexus.StatusExecuting⟩

/-- Claim C9 (counterexample): the PENDING→EXECUTING update of
`ProcessOrder` does not set `updatedAt` before persisting.  Processing a
PENDING order whose stored `updatedAt` is 5 at time 100, the first order
handed to `UpdateOrder` carries status EXECUTING with `updatedAt` still 5,
refuting the claim that every status update of the execution path sets
`updatedAt` before persisting. -/
theorem Nexus.processOrder_executing_keeps_stale_updatedAt :
    (Nexus.ProcessOrder true true true true 100 Nexus.dbP "O1").updates.head? =
      some { Nexus.orderP with status := Nexus.StatusExecuting } ∧
    ({ Nexus.orderP with status := Nexus.StatusExecuting } : Nexus.Order).updatedAt = 5 ∧
    (5 : Nat) ≠ 100 :=
  ⟨rfl, rfl, by decide⟩

/-- Claim C9 (amended): of the execution path's status updates, the
EXECUTING→COMPLETED and EXECUTING→FAILED writes set `updatedAt := now`
before persisting, while the PENDING→EXECUTING write persists the order
with its previous `updatedAt` unchanged — in application code only the
terminal writes refresh the timestamp (the EXECUTING row's `updated_at`
column is refreshed only by the persistence layer's own save hook, outside
this repository's code). -/
theorem Nexus.processOrder_updatedAt_refresh (exchangeOk publishOk : Bool) (now : Nat)
    (db : Nexus.Db) (orderID : String) (order : Nexus.Order)
    (hget : Nexus.GetOrder db orderID = some order)
    (hstatus : order.status = Nexus.StatusPending) :
    (Nexus.ProcessOrder exchangeOk true true publishOk now db orderID).updates =
      [{ order with status := Nexus.StatusExecuting },
       if exchangeOk then { order with status := Nexus.StatusCompleted, updatedAt := now }
       else { order with status := Nexus.StatusFailed, updatedAt := now }] := by
  have hcan : Nexus.Order.CanTransitionTo order Nexus.StatusExecuting = true := by
    unfold Nexus.Order.CanTransitionTo
    rw [hstatus]
    rfl
  unfold Nexus.ProcessOrder
  rw [hget]
  cases exchangeOk <;> simp [hcan]

/-- Witness for the amended C9 on a concrete PENDING order with stale
`updatedAt = 5`, processed successfully at time 100. -/
theorem Nexus.processOrder_updatedAt_refresh_witness :
    Nexus.GetOrder Nexus.dbP "O1" = some Nexus.orderP ∧
    Nexus.orderP.status = Nexus.StatusPending ∧
    (Nexus.ProcessOrder true true true true 100 Nexus.dbP "O1").updates =
      [{ Nexus.orderP with status := Nexus.StatusExecuting },
       { Nexus.orderP with status := Nexus.StatusCompleted, updatedAt := 100 }] := by
  have h := Nexus.processOrder_updatedAt_refresh true true 100 Nexus.dbP "O1" Nexus.orderP rfl rfl
  refine ⟨rfl, rfl, ?_⟩
  simpa using h
